import Mathlib

/-!
# Verification of the movie-downloader core (src/app.py)

A shallow embedding of the core logic of `src/app.py` together with proofs
of the specification's claims about it.

Modelling conventions:
* Python floats that the code manipulates with `//`, `%` and `int(...)` are
  modelled as exact rationals (`ℚ`); `//` is the floor of the quotient,
  `%` is the Python modulo `a - b*(a // b)`, and `int` of a value that is
  already non-negative is the floor.  The rational operations are written
  with `Rat.divInt` and `Rat.floor` so that they evaluate inside the
  kernel; bridge lemmas identify them with the field operations on `ℚ`.
* Python dicts with string keys are modelled as insertion-ordered
  association lists.
* The filesystem visible to a handler is modelled as an explicit list of
  file names (a workspace listing) or of full paths; the external
  extraction engine and the speech-recognition/muxing pipeline are
  parameters describing what they wrote and whether they failed.
-/

namespace MovieDownloader

/-! ## Decimal rendering (Python `str`/`format` of integers) -/

/-- Fuel-driven little-endian decimal digits (structural recursion so that
the kernel can evaluate it). -/
def natDigitsRevAux : ℕ → ℕ → List ℕ
  | 0, _ => []
  | fuel + 1, n => if n < 10 then [n] else n % 10 :: natDigitsRevAux fuel (n / 10)

/-- Little-endian decimal digits of a natural number, as Python's decimal
rendering produces them (a lone `0` for zero). -/
def natDigitsRev (n : ℕ) : List ℕ := natDigitsRevAux (n + 1) n

/-- Character for a single decimal digit. -/
def digitChr (d : ℕ) : Char := Char.ofNat (48 + d)

/-- Big-endian decimal digit characters of a natural number. -/
def natChars (n : ℕ) : List Char := ((natDigitsRev n).map digitChr).reverse

/-- Python `str(n)` for a natural number. -/
def natToString (n : ℕ) : String := String.mk (natChars n)

/-- Python `f"{n:0wd}"` for an integer: left-pad the decimal rendering with
zeros to width `w`; a negative integer keeps its sign inside the width, as
Python does. -/
def zfill (w : ℕ) (n : ℤ) : String :=
  if n < 0 then
    String.mk ('-' :: (List.replicate (w - 1 - (natChars n.natAbs).length) '0' ++ natChars n.natAbs))
  else
    String.mk (List.replicate (w - (natChars n.toNat).length) '0' ++ natChars n.toNat)

/-! ## Kernel-evaluable rational helpers

`src/app.py` only ever divides or takes `%` by the positive integer
constants 3600, 60 and 1, and multiplies a remainder by 1000, so the
helpers take a natural-number second operand. -/

/-- Python `a // n` (float floor division) for a non-zero natural `n`. -/
def pyFloorDiv (a : ℚ) (n : ℕ) : ℤ := Rat.floor (Rat.divInt a.num (a.den * n))

/-- Python `a % n`: `a - n * (a // n)`. -/
def pyMod (a : ℚ) (n : ℕ) : ℚ :=
  Rat.divInt (a.num - n * pyFloorDiv a n * a.den) a.den

/-- `⌊a * n⌋`, evaluable in the kernel. -/
def floorMul (a : ℚ) (n : ℕ) : ℤ := Rat.floor (Rat.divInt (a.num * n) a.den)

/-! ## `_format_srt_time` (src/app.py lines 211-217)

```python
def _format_srt_time(seconds):
    h = int(seconds // 3600)
    m = int((seconds % 3600) // 60)
    s = int(seconds % 60)
    ms = int((seconds % 1) * 1000)
    return f"{h:02d}:{m:02d}:{s:02d},{ms:03d}"
```
-/

/-- `_format_srt_time` from src/app.py, over exact rationals. -/
def formatSrtTime (seconds : ℚ) : String :=
  let h : ℤ := pyFloorDiv seconds 3600
  let m : ℤ := pyFloorDiv (pyMod seconds 3600) 60
  let s : ℤ := Rat.floor (pyMod seconds 60)
  let ms : ℤ := floorMul (pyMod seconds 1) 1000
  zfill 2 h ++ ":" ++ zfill 2 m ++ ":" ++ zfill 2 s ++ "," ++ zfill 3 ms

/-- The value of a big-endian digit list on top of an accumulator. -/
def digitsVal (ds : List ℕ) (acc : ℕ) : ℕ := ds.foldl (fun a d => a * 10 + d) acc

def isDigitChar (c : Char) : Bool := 48 ≤ c.toNat && c.toNat ≤ 57

def digitVal (c : Char) : ℕ := c.toNat - 48

/-- A zero-padded big-endian digit-character rendering: `k` leading
zeros, then the decimal digits of `n`. -/
def padChars (k n : ℕ) : List Char := List.replicate k '0' ++ natChars n

/-- The character list does not begin with a decimal digit. -/
def headNotDigit : List Char → Bool
  | [] => true
  | c :: _ => !isDigitChar c

/-! ## Python strings: `strip`, `endswith`, `os.path.basename` -/

/-- Python's default `str.strip` whitespace set (the ASCII part, which is
all the code ever strips). -/
def isSpaceChar (c : Char) : Bool :=
  c = ' ' || c = '\t' || c = '\n' || c = '\r' || c = '\x0b' || c = '\x0c'

/-- Python `s.strip()`. -/
def pyStrip (s : String) : String :=
  String.mk (((s.data.dropWhile isSpaceChar).reverse.dropWhile isSpaceChar).reverse)

/-- `bs` starts with `cs`. -/
def listStartsWith : List Char → List Char → Bool
  | _, [] => true
  | [], _ :: _ => false
  | b :: bs, c :: cs => b = c && listStartsWith bs cs

/-- Python `s.endswith(t)`. -/
def strEndsWith (s t : String) : Bool := listStartsWith s.data.reverse t.data.reverse

/-- The text after the last `/` of a character list. -/
def afterLastSlash (cs : List Char) : List Char :=
  cs.foldl (fun acc c => if c = '/' then [] else acc ++ [c]) []

/-- Python `os.path.basename` on a POSIX path. -/
def pyBasename (p : String) : String := String.mk (afterLastSlash p.data)

/-! ## Subtitle cues and `_generate_subtitles`'s SRT serialization
(src/app.py lines 185-192)

```python
    srt_path = os.path.join(task_dir, "generated.srt")
    with open(srt_path, "w", encoding="utf-8") as f:
        for i, seg in enumerate(result["segments"], 1):
            start = _format_srt_time(seg["start"])
            end = _format_srt_time(seg["end"])
            text = seg["text"].strip()
            f.write(f"{i}\n{start} --> {end}\n{text}\n\n")
```
-/

/-- One recognized segment (spec: `SubtitleSegment`); `stop` is the Python
key `"end"` (a Lean keyword). -/
structure SubtitleSegment where
  start : ℚ
  stop : ℚ
  text : String
deriving DecidableEq

/-- The text block the loop body writes for the `i`-th segment. -/
def serializeCue (i : ℕ) (seg : SubtitleSegment) : String :=
  natToString i ++ "\n" ++ formatSrtTime seg.start ++ " --> " ++ formatSrtTime seg.stop
    ++ "\n" ++ pyStrip seg.text ++ "\n\n"

/-- The loop of `_generate_subtitles`, starting at index `i`. -/
def generateSrtFrom (i : ℕ) : List SubtitleSegment → String
  | [] => ""
  | seg :: rest => serializeCue i seg ++ generateSrtFrom (i + 1) rest

/-- The full SRT file contents `_generate_subtitles` writes
(`enumerate(segments, 1)` numbers cues from 1). -/
def generateSrt (segs : List SubtitleSegment) : String := generateSrtFrom 1 segs

/-- A time offset truncated to whole milliseconds. -/
def msFloor (q : ℚ) : ℚ := Rat.divInt (floorMul q 1000) 1000

/-! ## A reference SRT parser

Modelled from the spec: the source has no parser; §8 asks that a
serialized cue sequence "re-parsed (conceptually) recovers the same
(start, end, text) tuples up to millisecond rounding".  The parser splits
the file into lines, reads each cue as an index line, a
`start --> end` time line, one text line and a blank separator, and
rebuilds the offsets from the `HH:MM:SS,mmm` fields. -/

/-- Split a character list at every newline (`"a\nb"` gives two lines, a
trailing newline contributes a final empty line). -/
def splitLines : List Char → List (List Char)
  | [] => [[]]
  | c :: cs =>
    if c = '\n' then [] :: splitLines cs
    else
      match splitLines cs with
      | l :: ls => (c :: l) :: ls
      | [] => [[c]]

/-- Consume leading decimal digits, accumulating their value. -/
def takeDigits : List Char → ℕ → ℕ × List Char
  | [], acc => (acc, [])
  | c :: cs, acc =>
    if isDigitChar c then takeDigits cs (acc * 10 + digitVal c) else (acc, c :: cs)

/-- Read a decimal number (at least one digit). -/
def parseNatFrom (cs : List Char) : Option (ℕ × List Char) :=
  match cs with
  | c :: _ => if isDigitChar c then some (takeDigits cs 0) else none
  | [] => none

/-- Consume an expected literal character sequence. -/
def dropLit : List Char → List Char → Option (List Char)
  | [], cs => some cs
  | a :: as, c :: cs => if a = c then dropLit as cs else none
  | _ :: _, [] => none

/-- Read `H:MM:SS,mmm` and return its offset in seconds (an exact
rational with denominator 1000) plus the remaining characters. -/
def parseTimeChars (cs : List Char) : Option (ℚ × List Char) :=
  match parseNatFrom cs with
  | none => none
  | some (h, cs) =>
    match dropLit [':'] cs with
    | none => none
    | some cs =>
      match parseNatFrom cs with
      | none => none
      | some (m, cs) =>
        match dropLit [':'] cs with
        | none => none
        | some cs =>
          match parseNatFrom cs with
          | none => none
          | some (s, cs) =>
            match dropLit [','] cs with
            | none => none
            | some cs =>
              match parseNatFrom cs with
              | none => none
              | some (ms, cs) =>
                some (Rat.divInt (((h * 3600 + m * 60 + s) * 1000 + ms : ℕ) : ℤ) 1000, cs)

/-- Read a whole `start --> end` line. -/
def parseTimeLine (cs : List Char) : Option (ℚ × ℚ) :=
  match parseTimeChars cs with
  | none => none
  | some (tStart, cs) =>
    match dropLit [' ', '-', '-', '>', ' '] cs with
    | none => none
    | some cs =>
      match parseTimeChars cs with
      | none => none
      | some (tStop, cs) => if cs = [] then some (tStart, tStop) else none

/-- Parse a list of lines as numbered cues.  A cue is an all-digit index
line, a time line, one text line, and a blank separator line; a single
trailing empty line (left by the final `\n\n`) ends the file. -/
def parseCues : List (List Char) → Option (List (ℚ × ℚ × String))
  | [] => some []
  | [[]] => some []
  | idxLine :: timeLine :: textLine :: blank :: rest =>
    match parseNatFrom idxLine with
    | some (_, []) =>
      if blank = [] then
        match parseTimeLine timeLine, parseCues rest with
        | some (tStart, tStop), some cues =>
          some ((tStart, tStop, String.mk textLine) :: cues)
        | _, _ => none
      else none
    | _ => none
  | _ => none

/-- The reference parser over a whole file. -/
def parseSrt (s : String) : Option (List (ℚ × ℚ × String)) := parseCues (splitLines s.data)

/-! ## `_format_entry` (src/app.py lines 55-101) -/

/-- The fields of one raw engine format record that `_format_entry`
reads; `none` is an absent key. -/
structure RawFormat where
  format_id : Option String
  vcodec : Option String
  acodec : Option String
  ext : Option String
  resolution : Option String
  format_note : Option String
  filesize : Option ℤ
  filesize_approx : Option ℤ
deriving DecidableEq

/-- Python `a or b` where `a` is a string field (`None` and `""` are
falsy). -/
def pyOrStr (a : Option String) (b : String) : String :=
  match a with
  | some s => if s = "" then b else s
  | none => b

/-- Python `a or b` where `a` is an optional integer (`None` and `0` are
falsy). -/
def pyOrInt (a b : Option ℤ) : Option ℤ :=
  match a with
  | some n => if n = 0 then b else some n
  | none => b

/-- Round `p / q` (with `q > 0`) half to even, as Python's `format`
does when printing one decimal place. -/
def roundHalfEvenFrac (p q : ℤ) : ℤ :=
  let f := Rat.floor (Rat.divInt p q)
  let r2 := 2 * (p - f * q)
  if r2 < q then f
  else if r2 > q then f + 1
  else if f % 2 = 0 then f else f + 1

/-- Python `f"{x:.1f}"` for a non-negative exact value (the modelling
abstracts the binary-float representation of the size quotient, which is
exact for the sizes involved; a Python float `-0.0` would render with a
sign this model drops). -/
def fmtFixed1 (x : ℚ) : String :=
  let n := roundHalfEvenFrac (x.num * 10) (x.den : ℤ)
  if n < 0 then "-" ++ natToString (n.natAbs / 10) ++ "." ++ natToString (n.natAbs % 10)
  else natToString (n.toNat / 10) ++ "." ++ natToString (n.toNat % 10)

/-- `f"[{filesize / 1024 / 1024:.1f}MB]"`. -/
def sizeTag (filesize : ℤ) : String :=
  "[" ++ fmtFixed1 (Rat.divInt filesize (1024 * 1024)) ++ "MB]"

/-- `f.get("vcodec", "none") != "none"`. -/
def hasVideo (f : RawFormat) : Bool := f.vcodec.getD "none" ≠ "none"

/-- `f.get("acodec", "none") != "none"`. -/
def hasAudio (f : RawFormat) : Bool := f.acodec.getD "none" ≠ "none"

/-- `f.get("resolution") or f.get("format_note") or ""`. -/
def resolutionOf (f : RawFormat) : String :=
  pyOrStr f.resolution (pyOrStr f.format_note "")

/-- `f.get("filesize") or f.get("filesize_approx")`. -/
def filesizeOf (f : RawFormat) : Option ℤ := pyOrInt f.filesize f.filesize_approx

/-- The truthiness of `filesize` in `if filesize:`. -/
def filesizeTruthy (f : RawFormat) : Bool :=
  match filesizeOf f with
  | some n => n ≠ 0
  | none => false

/-- The `label_parts` list `_format_entry` accumulates for one format. -/
def labelParts (f : RawFormat) : List String :=
  (if resolutionOf f ≠ "" then [resolutionOf f] else [])
    ++ [f.ext.getD "?"]
    ++ (if hasVideo f && hasAudio f then ["(映像+音声)"]
        else if hasVideo f then ["(映像のみ)"]
        else if hasAudio f then ["(音声のみ)"]
        else [])
    ++ (match filesizeOf f with
        | some n => if n ≠ 0 then [sizeTag n] else []
        | none => [])

/-- `" ".join(label_parts)`. -/
def formatLabel (f : RawFormat) : String := String.intercalate " " (labelParts f)

/-- One entry of the `formats` list `_format_entry` returns. -/
structure FormatOption where
  format_id : Option String
  label : String
  has_video : Bool
  has_audio : Bool
deriving DecidableEq

/-- The `formats` list of `_format_entry`. -/
def formatOptions (fs : List RawFormat) : List FormatOption :=
  fs.map fun f => ⟨f.format_id, formatLabel f, hasVideo f, hasAudio f⟩

/-- The label composition the spec describes, with its literal side
condition "an approximate size annotation if known size ≥ 0", where the
known size is the first size field present on the record.  Stated for
comparison with `formatLabel` (the source's composition). -/
def specLabelGeqZero (f : RawFormat) : String :=
  String.intercalate " "
    ((if resolutionOf f ≠ "" then [resolutionOf f] else [])
      ++ [f.ext.getD "?"]
      ++ (if hasVideo f && hasAudio f then ["(映像+音声)"]
          else if hasVideo f then ["(映像のみ)"]
          else if hasAudio f then ["(音声のみ)"]
          else [])
      ++ (match f.filesize.orElse (fun _ => f.filesize_approx) with
          | some n => if 0 ≤ n then [sizeTag n] else []
          | none => []))

/-- The size value the spec's label rule should consult, written from the
amended reading: the reported size, falling back to the approximate size
when the reported one is missing or zero. -/
def specSizeField (f : RawFormat) : Option ℤ :=
  match f.filesize with
  | some n => if n = 0 then f.filesize_approx else some n
  | none => f.filesize_approx

/-- The spec's label composition with the amended size condition: the
size annotation appears exactly when the consulted size value is present
and nonzero. -/
def specLabelNonzero (f : RawFormat) : String :=
  String.intercalate " "
    ((if resolutionOf f = "" then [] else [resolutionOf f])
      ++ [f.ext.getD "?"]
      ++ (if hasVideo f then
            if hasAudio f then ["(映像+音声)"] else ["(映像のみ)"]
          else if hasAudio f then ["(音声のみ)"] else [])
      ++ (match specSizeField f with
          | some n => if n = 0 then [] else [sizeTag n]
          | none => []))

/-! ### Subtitle language collection (src/app.py lines 86-92)

```python
    subtitles = {}
    for lang, subs in (info.get("subtitles") or {}).items():
        subtitles[lang] = {"label": lang, "auto": False}
    for lang, subs in (info.get("automatic_captions") or {}).items():
        if lang not in subtitles:
            subtitles[lang] = {"label": lang, "auto": True}
```
A dict entry `{"label": lang, "auto": b}` is modelled as the pair
`(lang, b)`; the dict is an insertion-ordered association list. -/

/-- Python `d[k] = v` on an insertion-ordered dict. -/
def dictInsert (d : List (String × Bool)) (k : String) (v : Bool) : List (String × Bool) :=
  if d.any (fun p => p.1 = k) then d.map (fun p => if p.1 = k then (k, v) else p)
  else d ++ [(k, v)]

/-- Python `if k not in d: d[k] = v`. -/
def dictInsertIfAbsent (d : List (String × Bool)) (k : String) (v : Bool) :
    List (String × Bool) :=
  if d.any (fun p => p.1 = k) then d else d ++ [(k, v)]

/-- The `subtitles` dict `_format_entry` builds: the keys of the
human-authored listing first, each tagged `auto = false`, then the keys of
the auto-generated listing that are not yet present, tagged `auto = true`. -/
def buildSubtitles (subs autos : List String) : List (String × Bool) :=
  autos.foldl (fun d lang => dictInsertIfAbsent d lang true)
    (subs.foldl (fun d lang => dictInsert d lang false) [])

/-! ## `serve_file` (src/app.py lines 220-231)

```python
def serve_file(task_id, filename):
    safe_task_id = os.path.basename(task_id)
    safe_filename = os.path.basename(filename)
    filepath = os.path.join(DOWNLOAD_DIR, safe_task_id, safe_filename)
    if not os.path.isfile(filepath):
        return jsonify({"error": "ファイルが見つかりません"}), 404
    return send_file(filepath, as_attachment=True, download_name=safe_filename)
```
`DOWNLOAD_DIR` is modelled as the path `"downloads"` and the filesystem
as the list of existing files under their OS-resolved paths (relative to
the application directory).  `os.path.isfile` and `send_file` act on the
path the kernel resolves, so the model resolves `.`, `..` and empty
segments of the joined path before the lookup — in particular a sanitized
component can still be `..`, and then the resolved path leaves the
download root. -/

/-- Split a character list at every `/` (the POSIX separator). -/
def splitSegs : List Char → List (List Char)
  | [] => [[]]
  | c :: cs =>
    if c = '/' then [] :: splitSegs cs
    else
      match splitSegs cs with
      | l :: ls => (c :: l) :: ls
      | [] => [[c]]

/-- Resolve `.`, `..` and empty segments the way the OS kernel does for a
relative path: `.` and empty segments vanish, `..` pops the previous
segment (and is kept when there is none to pop). -/
def resolveSegs (stack : List (List Char)) : List (List Char) → List (List Char)
  | [] => stack.reverse
  | s :: rest =>
    if s = [] ∨ s = ['.'] then resolveSegs stack rest
    else if s = ['.', '.'] then
      match stack with
      | t :: ts => if t = ['.', '.'] then resolveSegs (s :: stack) rest else resolveSegs ts rest
      | [] => resolveSegs [s] rest
    else resolveSegs (s :: stack) rest

/-- Re-join path segments with `/`. -/
def joinSegs : List (List Char) → List Char
  | [] => []
  | s :: rest => s ++ rest.foldl (fun acc t => acc ++ '/' :: t) []

/-- The OS-resolved form of a relative path. -/
def resolvePath (p : String) : String :=
  String.mk (joinSegs (resolveSegs [] (splitSegs p.data)))

inductive ServeResult where
  /-- `send_file(filepath, ..., download_name=safe_filename)`: the first
  component is the resolved path of the file whose contents are served. -/
  | file (filepath downloadName : String)
  /-- the 404 response -/
  | notFound
deriving DecidableEq

def serve_file (fs : List String) (task_id filename : String) : ServeResult :=
  let safe_task_id := pyBasename task_id
  let safe_filename := pyBasename filename
  let filepath := "downloads/" ++ safe_task_id ++ "/" ++ safe_filename
  if fs.contains (resolvePath filepath) then .file (resolvePath filepath) safe_filename
  else .notFound

/-! ## `download_video` (src/app.py lines 104-170)

The extraction engine and the subtitle-synthesis pipeline are modelled as
parameters: the engine either raises `DownloadError` or succeeds leaving a
listing of files in the task workspace; the synthesis step returns the
workspace listing as of its return or exception point (it writes
`generated.srt` and possibly a partial `*_sub.mp4` before failing) plus
either an error message or the new output path. -/

structure DownloadRequest where
  url : String
  format_id : String
  subtitle_lang : String
  embed_subs : Bool
  generate_subs : Bool
  whisper_lang : String

/-- The engine configuration fields `download_video` assembles
(src/app.py lines 120-144). -/
structure YdlOpts where
  quiet : Bool
  no_warnings : Bool
  noplaylist : Bool
  format : String
  merge_output_format : Option String
  writesubtitles : Bool
  writeautomaticsub : Bool
  subtitleslangs : List String
  postprocessors : List String
deriving DecidableEq

/-- The option-building portion of `download_video`, a pure function of
the stripped `format_id`, the stripped `subtitle_lang` and `embed_subs`. -/
def buildYdlOpts (format_id subtitle_lang : String) (embed_subs : Bool) : YdlOpts :=
  let base : YdlOpts :=
    { quiet := true, no_warnings := true, noplaylist := true, format := "",
      merge_output_format := none, writesubtitles := false,
      writeautomaticsub := false, subtitleslangs := [], postprocessors := [] }
  let o1 :=
    if format_id ≠ "" then
      { base with format := format_id ++ "+bestaudio/best/" ++ format_id,
                  merge_output_format := some "mp4" }
    else { base with format := "best" }
  if subtitle_lang ≠ "" then
    let o2 := { o1 with writesubtitles := true, writeautomaticsub := true,
                        subtitleslangs := [subtitle_lang] }
    if embed_subs then
      let o3 := { o2 with postprocessors := o2.postprocessors ++ ["FFmpegEmbedSubtitle"] }
      if format_id = "" then { o3 with merge_output_format := some "mp4" } else o3
    else o2
  else o1

/-- What one engine invocation did to the task workspace. -/
inductive EngineResult where
  | ok (files : List String)
  | downloadError (msg : String)

/-- What `_generate_subtitles` did: the workspace listing at its return
or exception point, and its outcome. -/
structure SynthEffect where
  files : List String
  result : Except String String

/-- The three response shapes of the download route: `{"task_id": ...,
"filename": ...}`, a 400 `{"error": ...}`, a 500 `{"error": ...}`. -/
inductive Response where
  | ok (task_id filename : String)
  | clientError (msg : String)
  | serverError (msg : String)
deriving DecidableEq

/-- The outcome of one download request: the response plus the final
state of the task workspace (`none`: directory deleted or never filled). -/
structure DownloadOutcome where
  response : Response
  workspace : Option (List String)
deriving DecidableEq

/-- `endswith((".srt", ".vtt", ".ass"))`. -/
def isSubtitleFile (f : String) : Bool :=
  strEndsWith f ".srt" || strEndsWith f ".vtt" || strEndsWith f ".ass"

/-- `download_video` from src/app.py.  `task_id` is the fresh uuid;
`engine` abstracts `YoutubeDL.download`; `synth` abstracts
`_generate_subtitles` (arguments: the chosen video file, the current
workspace listing, the stripped whisper language). -/
def download_video (req : DownloadRequest) (task_id : String)
    (engine : YdlOpts → EngineResult)
    (synth : String → List String → String → SynthEffect) : DownloadOutcome :=
  let url := pyStrip req.url
  if url = "" then ⟨.clientError "URLを入力してください", none⟩
  else
    let opts := buildYdlOpts (pyStrip req.format_id) (pyStrip req.subtitle_lang) req.embed_subs
    match engine opts with
    | .downloadError e =>
      ⟨.clientError ("ダウンロードに失敗しました: " ++ e), none⟩
    | .ok allFiles =>
      match allFiles.filter (fun f => !isSubtitleFile f) with
      | [] => ⟨.serverError "ファイルが見つかりません", none⟩
      | video_file :: _ =>
        if req.generate_subs then
          let eff := synth video_file allFiles (pyStrip req.whisper_lang)
          match eff.result with
          | .error e => ⟨.serverError ("字幕生成に失敗しました: " ++ e), some eff.files⟩
          | .ok outPath => ⟨.ok task_id (pyBasename outPath), some eff.files⟩
        else ⟨.ok task_id video_file, some allFiles⟩

theorem ratFloor_eq_intFloor (q : ℚ) : Rat.floor q = ⌊q⌋ := by
  rw [Rat.floor_def', ← Rat.floor_def]

theorem pyFloorDiv_eq (a : ℚ) (n : ℕ) : pyFloorDiv a n = ⌊a / n⌋ := by
  unfold pyFloorDiv
  rw [ratFloor_eq_intFloor, Rat.divInt_eq_div]
  congr 1
  push_cast
  rw [← div_div, Rat.num_div_den]

theorem pyMod_eq (a : ℚ) (n : ℕ) : pyMod a n = a - n * (pyFloorDiv a n : ℚ) := by
  have hden : (a.den : ℚ) ≠ 0 := by exact_mod_cast a.den_ne_zero
  unfold pyMod
  rw [Rat.divInt_eq_div]
  push_cast
  rw [sub_div, Rat.num_div_den, mul_div_assoc, div_self hden, mul_one]

theorem floorMul_eq (a : ℚ) (n : ℕ) : floorMul a n = ⌊a * n⌋ := by
  unfold floorMul
  rw [ratFloor_eq_intFloor, Rat.divInt_eq_div]
  congr 1
  push_cast
  rw [mul_comm (a.num : ℚ) (n : ℚ), mul_div_assoc, Rat.num_div_den, mul_comm]

/-! ## Properties of the decimal rendering -/

theorem natDigitsRevAux_congr (n : ℕ) : ∀ f1 f2, n < f1 → n < f2 →
    natDigitsRevAux f1 n = natDigitsRevAux f2 n := by
  induction n using Nat.strong_induction_on with
  | _ n ih =>
    intro f1 f2 h1 h2
    match f1, f2 with
    | a + 1, b + 1 =>
      by_cases h : n < 10
      · simp [natDigitsRevAux, h]
      · have hd : n / 10 < n := Nat.div_lt_self (by omega) (by omega)
        simp only [natDigitsRevAux, if_neg h]
        rw [ih (n / 10) hd a b (by omega) (by omega)]

theorem natDigitsRev_eq (n : ℕ) :
    natDigitsRev n = if n < 10 then [n] else n % 10 :: natDigitsRev (n / 10) := by
  have base : natDigitsRev n = if n < 10 then [n] else n % 10 :: natDigitsRevAux n (n / 10) := rfl
  by_cases h : n < 10
  · rw [base, if_pos h, if_pos h]
  · rw [base, if_neg h, if_neg h]
    exact congrArg (List.cons (n % 10))
      (natDigitsRevAux_congr (n / 10) n (n / 10 + 1) (by omega) (by omega))

theorem natDigitsRev_ne_nil (n : ℕ) : natDigitsRev n ≠ [] := by
  rw [natDigitsRev_eq]
  by_cases h : n < 10
  · simp [h]
  · simp [h]

theorem natDigitsRev_lt (n : ℕ) : ∀ d ∈ natDigitsRev n, d < 10 := by
  induction n using Nat.strong_induction_on with
  | _ n ih =>
    rw [natDigitsRev_eq]
    by_cases h : n < 10
    · simp [h]
    · have hd : n / 10 < n := Nat.div_lt_self (by omega) (by omega)
      simp only [if_neg h, List.mem_cons]
      rintro d (rfl | hm)
      · omega
      · exact ih (n / 10) hd d hm

theorem natDigitsRev_length_le (n w : ℕ) (h : n < 10 ^ w) (hw : 1 ≤ w) :
    (natDigitsRev n).length ≤ w := by
  induction n using Nat.strong_induction_on generalizing w with
  | _ n ih =>
    rw [natDigitsRev_eq]
    by_cases h10 : n < 10
    · simp only [if_pos h10, List.length_singleton]
      omega
    · have hd : n / 10 < n := Nat.div_lt_self (by omega) (by omega)
      have hw2 : 2 ≤ w := by
        by_contra hc
        have hw1 : w = 1 := by omega
        subst hw1
        omega
      have hq : n / 10 < 10 ^ (w - 1) := by
        have : n < 10 * 10 ^ (w - 1) := by
          have : 10 * 10 ^ (w - 1) = 10 ^ w := by
            rw [← pow_succ']
            congr 1
            omega
          omega
        omega
      have := ih (n / 10) hd (w - 1) hq (by omega)
      simp only [if_neg h10, List.length_cons]
      omega

theorem digitsVal_append_singleton (xs : List ℕ) (d acc : ℕ) :
    digitsVal (xs ++ [d]) acc = digitsVal xs acc * 10 + d := by
  simp [digitsVal]

theorem digitsVal_natDigitsRev (n : ℕ) : ∀ acc,
    digitsVal (natDigitsRev n).reverse acc = acc * 10 ^ (natDigitsRev n).length + n := by
  induction n using Nat.strong_induction_on with
  | _ n ih =>
    intro acc
    rw [natDigitsRev_eq]
    by_cases h : n < 10
    · simp [h, digitsVal]
    · have hd : n / 10 < n := Nat.div_lt_self (by omega) (by omega)
      simp only [if_neg h, List.reverse_cons, List.length_cons]
      rw [digitsVal_append_singleton, ih (n / 10) hd acc, pow_succ]
      have : 10 * (n / 10) + n % 10 = n := Nat.div_add_mod n 10
      ring_nf
      omega

theorem digitsVal_replicate_zero (k : ℕ) (ds : List ℕ) :
    digitsVal (List.replicate k 0 ++ ds) 0 = digitsVal ds 0 := by
  induction k with
  | zero => simp
  | succ k ihk => simpa [List.replicate_succ, digitsVal] using ihk

theorem digitChr_isDigit (d : ℕ) (h : d < 10) :
    isDigitChar (digitChr d) = true ∧ digitVal (digitChr d) = d := by
  interval_cases d <;> decide

theorem takeDigits_digits (ds : List ℕ) :
    ∀ acc (rest : List Char), (∀ d ∈ ds, d < 10) → headNotDigit rest = true →
      takeDigits (ds.map digitChr ++ rest) acc = (digitsVal ds acc, rest) := by
  induction ds with
  | nil =>
    intro acc rest _ hrest
    match rest with
    | [] => simp [takeDigits, digitsVal]
    | c :: cs =>
      simp only [headNotDigit, Bool.not_eq_true'] at hrest
      simp [takeDigits, digitsVal, hrest]
  | cons d ds ihd =>
    intro acc rest hds hrest
    have hd10 : d < 10 := hds d (by simp)
    obtain ⟨hdig, hval⟩ := digitChr_isDigit d hd10
    have step : takeDigits (digitChr d :: (ds.map digitChr ++ rest)) acc
        = takeDigits (ds.map digitChr ++ rest) (acc * 10 + digitVal (digitChr d)) := by
      simp [takeDigits, hdig]
    rw [List.map_cons, List.cons_append, step, hval,
      ihd (acc * 10 + d) rest (fun x hx => hds x (List.mem_cons_of_mem d hx)) hrest]
    rfl

theorem padChars_eq_map (k n : ℕ) :
    padChars k n = (List.replicate k 0 ++ (natDigitsRev n).reverse).map digitChr := by
  simp only [padChars, natChars, List.map_append, List.map_replicate, List.map_reverse]
  rfl

theorem takeDigits_padChars (k n : ℕ) (rest : List Char) (hrest : headNotDigit rest = true) :
    takeDigits (padChars k n ++ rest) 0 = (n, rest) := by
  rw [padChars_eq_map, takeDigits_digits]
  · rw [digitsVal_replicate_zero, digitsVal_natDigitsRev]
    simp
  · intro d hd
    rcases List.mem_append.1 hd with hz | hm
    · have := List.eq_of_mem_replicate hz
      omega
    · exact natDigitsRev_lt n d (List.mem_reverse.1 hm)
  · exact hrest

theorem padChars_ne_nil (k n : ℕ) : padChars k n ≠ [] := by
  rw [padChars_eq_map]
  intro h
  rcases List.map_eq_nil_iff.1 h with h2
  rcases List.append_eq_nil.1 h2 with ⟨_, h4⟩
  exact natDigitsRev_ne_nil n (by simpa using congrArg List.reverse h4)

theorem mem_padChars_isDigit (k n : ℕ) (c : Char) (hc : c ∈ padChars k n) :
    isDigitChar c = true := by
  rw [padChars_eq_map] at hc
  rcases List.mem_map.1 hc with ⟨d, hd, rfl⟩
  rcases List.mem_append.1 hd with hz | hm
  · have := List.eq_of_mem_replicate hz
    subst this
    decide
  · exact (digitChr_isDigit d (natDigitsRev_lt n d (List.mem_reverse.1 hm))).1

theorem parseNatFrom_padChars (k n : ℕ) (rest : List Char) (hrest : headNotDigit rest = true) :
    parseNatFrom (padChars k n ++ rest) = some (n, rest) := by
  rcases hp : padChars k n with _ | ⟨c, cs⟩
  · exact absurd hp (padChars_ne_nil k n)
  · have hc : isDigitChar c = true := mem_padChars_isDigit k n c (by rw [hp]; simp)
    have := takeDigits_padChars k n rest hrest
    rw [hp] at this
    simpa [parseNatFrom, hc] using this

/-! ## Bounds and decomposition of `_format_srt_time`'s components -/

theorem pyMod_bounds (a : ℚ) (n : ℕ) (hn : 0 < n) :
    0 ≤ pyMod a n ∧ pyMod a n < n := by
  have hn' : (0 : ℚ) < n := by exact_mod_cast hn
  rw [pyMod_eq, pyFloorDiv_eq]
  constructor
  · have h1 : ((⌊a / n⌋ : ℚ)) ≤ a / n := Int.floor_le _
    have h2 : (n : ℚ) * ⌊a / n⌋ ≤ n * (a / n) :=
      mul_le_mul_of_nonneg_left h1 (le_of_lt hn')
    have h3 : (n : ℚ) * (a / n) = a := by field_simp
    linarith
  · have h1 : a / n < ⌊a / n⌋ + 1 := Int.lt_floor_add_one _
    have h2 : (n : ℚ) * (a / n) < n * (⌊a / n⌋ + 1) := mul_lt_mul_of_pos_left h1 hn'
    have h3 : (n : ℚ) * (a / n) = a := by field_simp
    have h4 : (n : ℚ) * (⌊a / n⌋ + 1) = n * ⌊a / n⌋ + n := by ring
    linarith

theorem floor_div60_split (q : ℚ) :
    ⌊q / 60⌋ = 60 * ⌊q / 3600⌋ + ⌊pyMod q 3600 / 60⌋ := by
  have h1 : pyMod q 3600 / 60 = q / 60 - ((60 * ⌊q / 3600⌋ : ℤ) : ℚ) := by
    rw [pyMod_eq, pyFloorDiv_eq]
    push_cast
    ring
  rw [h1, Int.floor_sub_int]
  ring

theorem floor_split_60 (q : ℚ) : 60 * ⌊q / 60⌋ + ⌊pyMod q 60⌋ = ⌊q⌋ := by
  have h1 : pyMod q 60 = q - ((60 * ⌊q / 60⌋ : ℤ) : ℚ) := by
    rw [pyMod_eq, pyFloorDiv_eq]
    push_cast
    ring
  rw [h1, Int.floor_sub_int]
  ring

theorem pyMod_one_eq (q : ℚ) : pyMod q 1 = q - ⌊q⌋ := by
  rw [pyMod_eq, pyFloorDiv_eq]
  push_cast
  rw [div_one]
  ring

theorem ms_component_eq (q : ℚ) : floorMul (pyMod q 1) 1000 = ⌊(q - ⌊q⌋) * 1000⌋ := by
  rw [floorMul_eq, pyMod_one_eq]
  norm_num

theorem floor_ms_split (q : ℚ) : 1000 * ⌊q⌋ + ⌊(q - ⌊q⌋) * 1000⌋ = ⌊q * 1000⌋ := by
  have h1 : q * 1000 = (q - ⌊q⌋) * 1000 + ((1000 * ⌊q⌋ : ℤ) : ℚ) := by
    push_cast
    ring
  rw [h1, Int.floor_add_int]
  ring

/-- The decomposition of `_format_srt_time` on a non-negative offset:
natural components with minutes/seconds in `[0, 60)`, milliseconds in
`[0, 1000)`, the hour/minute/second triple carrying the floor of the
offset and the whole tuple carrying its floor in milliseconds. -/
theorem formatSrtTime_decomp (q : ℚ) (hq : 0 ≤ q) :
    ∃ h m s ms : ℕ, m < 60 ∧ s < 60 ∧ ms < 1000 ∧
      ((3600 * h + 60 * m + s : ℕ) : ℤ) = ⌊q⌋ ∧
      (((3600 * h + 60 * m + s) * 1000 + ms : ℕ) : ℤ) = ⌊q * 1000⌋ ∧
      formatSrtTime q =
        zfill 2 (h : ℤ) ++ ":" ++ zfill 2 (m : ℤ) ++ ":" ++ zfill 2 (s : ℤ) ++ ","
          ++ zfill 3 (ms : ℤ) := by
  have h3600 := pyMod_bounds q 3600 (by omega)
  have h60 := pyMod_bounds q 60 (by omega)
  have h1 := pyMod_bounds q 1 (by omega)
  have h3600b : pyMod q 3600 < 3600 := by exact_mod_cast h3600.2
  have h60b : pyMod q 60 < 60 := by exact_mod_cast h60.2
  have h1b : pyMod q 1 < 1 := by exact_mod_cast h1.2
  have hHnn : 0 ≤ ⌊q / 3600⌋ := Int.floor_nonneg.2 (div_nonneg hq (by norm_num))
  have hMnn : 0 ≤ ⌊pyMod q 3600 / 60⌋ :=
    Int.floor_nonneg.2 (div_nonneg h3600.1 (by norm_num))
  have hMlt : ⌊pyMod q 3600 / 60⌋ < 60 := by
    apply Int.floor_lt.2
    rw [div_lt_iff₀ (by norm_num)]
    push_cast
    linarith
  have hSnn : 0 ≤ ⌊pyMod q 60⌋ := Int.floor_nonneg.2 h60.1
  have hSlt : ⌊pyMod q 60⌋ < 60 := by
    apply Int.floor_lt.2
    push_cast
    exact h60b
  have hMSnn : 0 ≤ ⌊pyMod q 1 * 1000⌋ :=
    Int.floor_nonneg.2 (mul_nonneg h1.1 (by norm_num))
  have hMSlt : ⌊pyMod q 1 * 1000⌋ < 1000 := by
    apply Int.floor_lt.2
    push_cast
    linarith
  refine ⟨(⌊q / 3600⌋).toNat, (⌊pyMod q 3600 / 60⌋).toNat, (⌊pyMod q 60⌋).toNat,
    (⌊pyMod q 1 * 1000⌋).toNat, by omega, by omega, by omega, ?_, ?_, ?_⟩
  · push_cast [Int.toNat_of_nonneg hHnn, Int.toNat_of_nonneg hMnn, Int.toNat_of_nonneg hSnn]
    have e1 := floor_div60_split q
    have e2 := floor_split_60 q
    omega
  · push_cast [Int.toNat_of_nonneg hHnn, Int.toNat_of_nonneg hMnn, Int.toNat_of_nonneg hSnn,
      Int.toNat_of_nonneg hMSnn]
    have e1 := floor_div60_split q
    have e2 := floor_split_60 q
    have e3 := floor_ms_split q
    have e5 : pyMod q 1 * 1000 = (q - ⌊q⌋) * 1000 := by rw [pyMod_one_eq]
    rw [e5]
    omega
  · show zfill 2 (pyFloorDiv q 3600) ++ ":" ++ zfill 2 (pyFloorDiv (pyMod q 3600) 60) ++ ":"
      ++ zfill 2 (Rat.floor (pyMod q 60)) ++ "," ++ zfill 3 (floorMul (pyMod q 1) 1000) = _
    rw [pyFloorDiv_eq, pyFloorDiv_eq, ratFloor_eq_intFloor, floorMul_eq,
      Int.toNat_of_nonneg hHnn, Int.toNat_of_nonneg hMnn, Int.toNat_of_nonneg hSnn,
      Int.toNat_of_nonneg hMSnn]
    norm_num

/-! ## The serialized SRT stream, character by character -/

theorem strData_append (a b : String) : (a ++ b).data = a.data ++ b.data := rfl

theorem natToString_data (n : ℕ) : (natToString n).data = padChars 0 n := by
  simp [natToString, padChars]

theorem zfill_coe_nat_data (w n : ℕ) :
    (zfill w (n : ℤ)).data = padChars (w - (natChars n).length) n := by
  rw [zfill, if_neg (by omega)]
  simp [padChars]

theorem headNotDigit_cons (c : Char) (cs : List Char) :
    headNotDigit (c :: cs) = !isDigitChar c := rfl

theorem newline_not_mem_padChars (k n : ℕ) : '\n' ∉ padChars k n := by
  intro hmem
  exact absurd (mem_padChars_isDigit k n _ hmem) (by decide)

theorem dropLit_same (c : Char) (l cs : List Char) :
    dropLit (c :: l) (c :: cs) = dropLit l cs := by
  simp [dropLit]

theorem dropLit_nil (cs : List Char) : dropLit [] cs = some cs := rfl

theorem isDigitChar_colon : isDigitChar ':' = false := by decide

theorem isDigitChar_comma : isDigitChar ',' = false := by decide

theorem isDigitChar_space : isDigitChar ' ' = false := by decide

/-- `formatSrtTime` of a non-negative offset, followed by anything not
starting with a digit, parses back to the offset truncated to whole
milliseconds. -/
theorem parseTimeChars_format (q : ℚ) (hq : 0 ≤ q) (rest : List Char)
    (hrest : headNotDigit rest = true) :
    parseTimeChars ((formatSrtTime q).data ++ rest) = some (msFloor q, rest) := by
  obtain ⟨h, m, s, ms, hm, hs, hms, e1, e2, hrender⟩ := formatSrtTime_decomp q hq
  rw [hrender]
  have e0 : (zfill 2 (h : ℤ) ++ ":" ++ zfill 2 (m : ℤ) ++ ":" ++ zfill 2 (s : ℤ) ++ ","
        ++ zfill 3 (ms : ℤ)).data ++ rest
      = padChars (2 - (natChars h).length) h ++ (':' ::
        (padChars (2 - (natChars m).length) m ++ (':' ::
          (padChars (2 - (natChars s).length) s ++ (',' ::
            (padChars (3 - (natChars ms).length) ms ++ rest)))))) := by
    simp [strData_append, zfill_coe_nat_data, List.append_assoc]
  rw [e0]
  simp only [parseTimeChars, parseNatFrom_padChars, headNotDigit_cons, isDigitChar_colon,
    isDigitChar_comma, Bool.not_false, hrest, dropLit_same, dropLit_nil]
  have eval : ((h * 3600 + m * 60 + s) * 1000 + ms : ℕ)
      = ((3600 * h + 60 * m + s) * 1000 + ms : ℕ) := by ring
  have e2' : (((h * 3600 + m * 60 + s) * 1000 + ms : ℕ) : ℤ) = ⌊q * ((1000 : ℕ) : ℚ)⌋ := by
    rw [eval, e2]
    norm_num
  rw [msFloor, floorMul_eq, ← e2']

/-- A whole `start --> end` line as `_generate_subtitles` writes it
parses back to the two truncated offsets. -/
theorem parseTimeLine_format (a b : ℚ) (ha : 0 ≤ a) (hb : 0 ≤ b) :
    parseTimeLine ((formatSrtTime a ++ " --> " ++ formatSrtTime b).data)
      = some (msFloor a, msFloor b) := by
  have e0 : (formatSrtTime a ++ " --> " ++ formatSrtTime b).data
      = (formatSrtTime a).data
        ++ (' ' :: '-' :: '-' :: '>' :: ' ' :: ((formatSrtTime b).data ++ [])) := by
    simp [strData_append]
  have pb : parseTimeChars (formatSrtTime b).data = some (msFloor b, []) := by
    have hpb := parseTimeChars_format b hb [] (by decide)
    rwa [List.append_nil] at hpb
  rw [parseTimeLine, e0,
    parseTimeChars_format a ha _ (by rw [headNotDigit_cons]; decide)]
  simp [dropLit_same, dropLit_nil, pb]

/-! ## Lines of the serialized file -/

theorem splitLines_newline (cs : List Char) :
    splitLines ('\n' :: cs) = [] :: splitLines cs := by
  simp [splitLines]

theorem splitLines_append (xs : List Char) (hxs : '\n' ∉ xs) (ys : List Char) :
    splitLines (xs ++ '\n' :: ys) = xs :: splitLines ys := by
  induction xs with
  | nil => simp [splitLines]
  | cons c cs ih =>
    have hc : c ≠ '\n' := fun hh => hxs (by simp [hh])
    rw [List.cons_append]
    rw [show splitLines (c :: (cs ++ '\n' :: ys))
        = match splitLines (cs ++ '\n' :: ys) with
          | l :: ls => (c :: l) :: ls
          | [] => [[c]] from by simp [splitLines, hc]]
    rw [ih (fun hh => hxs (List.mem_cons_of_mem c hh))]

theorem format_data_shape (q : ℚ) (hq : 0 ≤ q) :
    ∃ k1 n1 k2 n2 k3 n3 k4 n4 : ℕ, (formatSrtTime q).data
      = padChars k1 n1 ++ ':' :: (padChars k2 n2 ++ ':'
        :: (padChars k3 n3 ++ ',' :: padChars k4 n4)) := by
  obtain ⟨h, m, s, ms, _, _, _, _, _, hrender⟩ := formatSrtTime_decomp q hq
  refine ⟨2 - (natChars h).length, h, 2 - (natChars m).length, m, 2 - (natChars s).length, s,
    3 - (natChars ms).length, ms, ?_⟩
  rw [hrender]
  simp [strData_append, zfill_coe_nat_data, List.append_assoc]

theorem newline_not_mem_format (q : ℚ) (hq : 0 ≤ q) : '\n' ∉ (formatSrtTime q).data := by
  obtain ⟨k1, n1, k2, n2, k3, n3, k4, n4, hshape⟩ := format_data_shape q hq
  rw [hshape]
  intro hmem
  rcases List.mem_append.1 hmem with h1 | h1
  · exact newline_not_mem_padChars _ _ h1
  rcases List.mem_cons.1 h1 with h2 | h2
  · exact absurd h2 (by decide)
  rcases List.mem_append.1 h2 with h3 | h3
  · exact newline_not_mem_padChars _ _ h3
  rcases List.mem_cons.1 h3 with h4 | h4
  · exact absurd h4 (by decide)
  rcases List.mem_append.1 h4 with h5 | h5
  · exact newline_not_mem_padChars _ _ h5
  rcases List.mem_cons.1 h5 with h6 | h6
  · exact absurd h6 (by decide)
  exact newline_not_mem_padChars _ _ h6

theorem newline_not_mem_timeline (a b : ℚ) (ha : 0 ≤ a) (hb : 0 ≤ b) :
    '\n' ∉ (formatSrtTime a ++ " --> " ++ formatSrtTime b).data := by
  intro hmem
  simp only [strData_append, List.mem_append] at hmem
  rcases hmem with (h1 | h2) | h3
  · exact newline_not_mem_format a ha h1
  · exact absurd h2 (by decide)
  · exact newline_not_mem_format b hb h3

theorem newline_not_mem_natToString (n : ℕ) : '\n' ∉ (natToString n).data := by
  rw [natToString_data]
  exact newline_not_mem_padChars 0 n

/-- The lines of one serialized cue followed by more output. -/
theorem splitLines_cue (i : ℕ) (seg : SubtitleSegment) (tail : String)
    (hstart : 0 ≤ seg.start) (hstop : 0 ≤ seg.stop)
    (htext : '\n' ∉ (pyStrip seg.text).data) :
    splitLines (serializeCue i seg ++ tail).data
      = (natToString i).data
        :: (formatSrtTime seg.start ++ " --> " ++ formatSrtTime seg.stop).data
        :: (pyStrip seg.text).data
        :: [] :: splitLines tail.data := by
  have e0 : (serializeCue i seg ++ tail).data
      = (natToString i).data ++ '\n'
        :: ((formatSrtTime seg.start ++ " --> " ++ formatSrtTime seg.stop).data ++ '\n'
          :: ((pyStrip seg.text).data ++ '\n' :: '\n' :: tail.data)) := by
    simp [serializeCue, strData_append]
  rw [e0, splitLines_append _ (newline_not_mem_natToString i),
    splitLines_append _ (newline_not_mem_timeline _ _ hstart hstop),
    splitLines_append _ htext, splitLines_newline]

/-- Parsing the serialized output of the cue loop started at any index
recovers every segment's millisecond-truncated offsets and stripped text. -/
theorem parseCues_generateSrtFrom (segs : List SubtitleSegment) : ∀ i : ℕ,
    (∀ seg ∈ segs, 0 ≤ seg.start ∧ 0 ≤ seg.stop ∧ '\n' ∉ (pyStrip seg.text).data) →
    parseCues (splitLines (generateSrtFrom i segs).data)
      = some (segs.map fun seg => (msFloor seg.start, msFloor seg.stop, pyStrip seg.text)) := by
  induction segs with
  | nil =>
    intro i _
    show parseCues (splitLines ("" : String).data) = some []
    rfl
  | cons seg rest ih =>
    intro i hsegs
    obtain ⟨hstart, hstop, htext⟩ := hsegs seg (by simp)
    rw [show generateSrtFrom i (seg :: rest) = serializeCue i seg ++ generateSrtFrom (i + 1) rest
        from rfl,
      splitLines_cue i seg _ hstart hstop htext]
    have hidx : parseNatFrom (natToString i).data = some (i, []) := by
      have hp := parseNatFrom_padChars 0 i [] (by decide)
      rwa [List.append_nil, ← natToString_data] at hp
    rw [parseCues, hidx]
    simp only [if_pos rfl, parseTimeLine_format seg.start seg.stop hstart hstop,
      ih (i + 1) (fun x hx => hsegs x (List.mem_cons_of_mem seg hx)), List.map_cons]
    rfl

theorem msFloor_le (q : ℚ) : msFloor q ≤ q := by
  rw [msFloor, floorMul_eq, Rat.divInt_eq_div]
  push_cast
  rw [div_le_iff₀ (by norm_num : (0 : ℚ) < 1000)]
  exact Int.floor_le (q * 1000)

theorem msFloor_gt (q : ℚ) : q - 1 / 1000 < msFloor q := by
  rw [msFloor, floorMul_eq, Rat.divInt_eq_div]
  push_cast
  rw [lt_div_iff₀ (by norm_num : (0 : ℚ) < 1000)]
  have h1 : q * 1000 < ⌊q * 1000⌋ + 1 := Int.lt_floor_add_one _
  linarith

theorem strLength_data (s : String) : s.length = s.data.length := rfl

theorem natChars_length (n : ℕ) : (natChars n).length = (natDigitsRev n).length := by
  simp [natChars]

theorem zfill_length_eq (w n : ℕ) (hn : n < 10 ^ w) (hw : 1 ≤ w) :
    (zfill w (n : ℤ)).length = w := by
  have hlen : (natChars n).length ≤ w := by
    rw [natChars_length]
    exact natDigitsRev_length_le n w hn hw
  rw [strLength_data, zfill_coe_nat_data, padChars]
  simp only [List.length_append, List.length_replicate]
  omega

theorem zfill_length_ge (w : ℕ) (n : ℕ) : w ≤ (zfill w (n : ℤ)).length := by
  rw [strLength_data, zfill_coe_nat_data, padChars]
  simp only [List.length_append, List.length_replicate]
  omega

/-! ## Claims C6, C10, C8 -/

/-- C6: the subtitle time formatter maps a seconds offset to
`HH:MM:SS,mmm` by integer floor division and modulo; in particular
3725.250 s renders as "01:02:05,250", 0.0 as "00:00:00,000" and 59.999 as
"00:00:59,999". -/
theorem C6_format_srt_time_examples :
    formatSrtTime (3725.250 : ℚ) = "01:02:05,250"
      ∧ formatSrtTime (0.0 : ℚ) = "00:00:00,000"
      ∧ formatSrtTime (59.999 : ℚ) = "00:00:59,999" := by
  refine ⟨?_, ?_, ?_⟩
  · rw [show (3725.250 : ℚ) = Rat.divInt 14901 4 from by
      rw [Rat.divInt_eq_div]; norm_num]
    decide
  · rw [show (0.0 : ℚ) = 0 from by norm_num]
    decide
  · rw [show (59.999 : ℚ) = Rat.divInt 59999 1000 from by
      rw [Rat.divInt_eq_div]; norm_num]
    decide

/-- C10: on every non-negative offset `_format_srt_time` yields a
well-formed timestamp: minute and second components in `[0, 60)`,
milliseconds in `[0, 1000)`, rendered zero-padded to widths 2, 2 and 3,
with the hour field at least 2 wide (unbounded above). -/
theorem C10_format_srt_time_shape (q : ℚ) (hq : 0 ≤ q) :
    ∃ h m s ms : ℕ, m < 60 ∧ s < 60 ∧ ms < 1000 ∧
      formatSrtTime q = zfill 2 (h : ℤ) ++ ":" ++ zfill 2 (m : ℤ) ++ ":" ++ zfill 2 (s : ℤ)
        ++ "," ++ zfill 3 (ms : ℤ)
      ∧ (zfill 2 (m : ℤ)).length = 2 ∧ (zfill 2 (s : ℤ)).length = 2
      ∧ (zfill 3 (ms : ℤ)).length = 3 ∧ 2 ≤ (zfill 2 (h : ℤ)).length := by
  obtain ⟨h, m, s, ms, hm, hs, hms, _, _, hrender⟩ := formatSrtTime_decomp q hq
  exact ⟨h, m, s, ms, hm, hs, hms, hrender,
    zfill_length_eq 2 m (by omega) (by omega), zfill_length_eq 2 s (by omega) (by omega),
    zfill_length_eq 3 ms (by omega) (by omega), zfill_length_ge 2 h⟩

/-- C10 witness: the shape theorem applied at the concrete offset 5/2. -/
theorem C10_format_srt_time_shape_witness :
    (0 : ℚ) ≤ 5 / 2 ∧
      ∃ h m s ms : ℕ, m < 60 ∧ s < 60 ∧ ms < 1000 ∧
        formatSrtTime (5 / 2 : ℚ) = zfill 2 (h : ℤ) ++ ":" ++ zfill 2 (m : ℤ) ++ ":"
          ++ zfill 2 (s : ℤ) ++ "," ++ zfill 3 (ms : ℤ)
        ∧ (zfill 2 (m : ℤ)).length = 2 ∧ (zfill 2 (s : ℤ)).length = 2
        ∧ (zfill 3 (ms : ℤ)).length = 3 ∧ 2 ≤ (zfill 2 (h : ℤ)).length :=
  ⟨by norm_num, C10_format_srt_time_shape (5 / 2) (by norm_num)⟩

/-- C8 counterexample: a valid segment whose text carries surrounding
whitespace is not recovered verbatim — serialization trims it — so the
round trip does not return the same (start, end, text) tuple even though
both offsets are exact multiples of a millisecond. -/
theorem C8_counterexample :
    parseSrt (generateSrt [⟨0, 1, " hi "⟩]) = some [(0, 1, "hi")]
      ∧ parseSrt (generateSrt [⟨0, 1, " hi "⟩]) ≠ some [(0, 1, " hi ")] := by
  exact ⟨by decide, by decide⟩

/-- C8 amended: for segments with non-negative offsets and
newline-free, already-stripped text, serializing and re-parsing recovers
exactly the texts and the offsets truncated to whole milliseconds — hence
each recovered offset is within 1/1000 s below the original. -/
theorem C8_roundtrip (segs : List SubtitleSegment)
    (hsegs : ∀ seg ∈ segs, 0 ≤ seg.start ∧ 0 ≤ seg.stop ∧ pyStrip seg.text = seg.text
      ∧ '\n' ∉ seg.text.data) :
    parseSrt (generateSrt segs)
      = some (segs.map fun seg => (msFloor seg.start, msFloor seg.stop, seg.text))
    ∧ ∀ seg ∈ segs, seg.start - 1 / 1000 < msFloor seg.start ∧ msFloor seg.start ≤ seg.start
      ∧ seg.stop - 1 / 1000 < msFloor seg.stop ∧ msFloor seg.stop ≤ seg.stop := by
  constructor
  · rw [parseSrt, generateSrt,
      parseCues_generateSrtFrom segs 1 (fun seg hmem => by
        obtain ⟨h1, h2, h3, h4⟩ := hsegs seg hmem
        exact ⟨h1, h2, by rw [h3]; exact h4⟩)]
    congr 1
    apply List.map_congr_left
    intro seg hmem
    rw [(hsegs seg hmem).2.2.1]
  · intro seg _
    exact ⟨msFloor_gt seg.start, msFloor_le seg.start, msFloor_gt seg.stop,
      msFloor_le seg.stop⟩

/-- C8 witness: the amended round trip applied to one concrete segment. -/
theorem C8_roundtrip_witness :
    parseSrt (generateSrt [⟨0, 1, "hi"⟩])
      = some ([(⟨0, 1, "hi"⟩ : SubtitleSegment)].map
          fun seg => (msFloor seg.start, msFloor seg.stop, seg.text))
    ∧ ∀ seg ∈ [(⟨0, 1, "hi"⟩ : SubtitleSegment)],
        seg.start - 1 / 1000 < msFloor seg.start ∧ msFloor seg.start ≤ seg.start
          ∧ seg.stop - 1 / 1000 < msFloor seg.stop ∧ msFloor seg.stop ≤ seg.stop :=
  C8_roundtrip [⟨0, 1, "hi"⟩] (by decide)

/-! ## The subtitle dict of `_format_entry` (claim C5) -/

theorem any_key_eq (d : List (String × Bool)) (k : String) :
    d.any (fun p => p.1 = k) = true ↔ k ∈ d.map Prod.fst := by
  simp [List.any_eq_true]

theorem keys_dictInsert_of_mem (d : List (String × Bool)) (k : String) (v : Bool)
    (hk : k ∈ d.map Prod.fst) : (dictInsert d k v).map Prod.fst = d.map Prod.fst := by
  rw [dictInsert, if_pos ((any_key_eq d k).2 hk), List.map_map]
  apply List.map_congr_left
  intro p _
  by_cases hp : p.1 = k
  · simp [hp]
  · simp [hp]

theorem keys_dictInsert_of_not_mem (d : List (String × Bool)) (k : String) (v : Bool)
    (hk : k ∉ d.map Prod.fst) :
    (dictInsert d k v).map Prod.fst = d.map Prod.fst ++ [k] := by
  rw [dictInsert, if_neg]
  · simp
  · intro hc
    exact hk ((any_key_eq d k).1 hc)

theorem keys_nodup_dictInsert (d : List (String × Bool)) (k : String) (v : Bool)
    (hd : (d.map Prod.fst).Nodup) : ((dictInsert d k v).map Prod.fst).Nodup := by
  by_cases hk : k ∈ d.map Prod.fst
  · rw [keys_dictInsert_of_mem d k v hk]
    exact hd
  · rw [keys_dictInsert_of_not_mem d k v hk]
    simp [List.nodup_append, hd, hk]

theorem mem_keys_dictInsert (d : List (String × Bool)) (k : String) (v : Bool) (lang : String) :
    lang ∈ (dictInsert d k v).map Prod.fst ↔ lang = k ∨ lang ∈ d.map Prod.fst := by
  by_cases hk : k ∈ d.map Prod.fst
  · rw [keys_dictInsert_of_mem d k v hk]
    constructor
    · exact Or.inr
    · rintro (rfl | hm)
      · exact hk
      · exact hm
  · rw [keys_dictInsert_of_not_mem d k v hk]
    simp [or_comm]

theorem values_false_dictInsert (d : List (String × Bool)) (k : String)
    (hd : ∀ p ∈ d, p.2 = false) : ∀ p ∈ dictInsert d k false, p.2 = false := by
  intro p hp
  rw [dictInsert] at hp
  by_cases hk : d.any (fun q => q.1 = k) = true
  · rw [if_pos hk] at hp
    rcases List.mem_map.1 hp with ⟨q, hq, he⟩
    by_cases hqk : q.1 = k
    · rw [if_pos hqk] at he
      rw [← he]
    · rw [if_neg hqk] at he
      rw [← he]
      exact hd q hq
  · rw [if_neg hk] at hp
    rcases List.mem_append.1 hp with hm | hm
    · exact hd p hm
    · simp at hm
      rw [hm]

theorem phase1_invariant (subs : List String) : ∀ d : List (String × Bool),
    (d.map Prod.fst).Nodup → (∀ p ∈ d, p.2 = false) →
    ((subs.foldl (fun d lang => dictInsert d lang false) d).map Prod.fst).Nodup
      ∧ (∀ p ∈ subs.foldl (fun d lang => dictInsert d lang false) d, p.2 = false)
      ∧ (∀ lang, lang ∈ subs ∨ lang ∈ d.map Prod.fst →
          lang ∈ (subs.foldl (fun d lang => dictInsert d lang false) d).map Prod.fst) := by
  induction subs with
  | nil =>
    intro d h1 h2
    refine ⟨h1, h2, ?_⟩
    rintro lang (hm | hm)
    · exact absurd hm (List.not_mem_nil lang)
    · exact hm
  | cons a subs ih =>
    intro d h1 h2
    simp only [List.foldl_cons]
    obtain ⟨g1, g2, g3⟩ := ih (dictInsert d a false) (keys_nodup_dictInsert d a false h1)
      (values_false_dictInsert d a h2)
    refine ⟨g1, g2, ?_⟩
    rintro lang (hm | hm)
    · rcases List.mem_cons.1 hm with rfl | hm2
      · exact g3 lang (Or.inr ((mem_keys_dictInsert d lang false lang).2 (Or.inl rfl)))
      · exact g3 lang (Or.inl hm2)
    · exact g3 lang (Or.inr ((mem_keys_dictInsert d a false lang).2 (Or.inr hm)))

theorem phase2_invariant (autos : List String) : ∀ d : List (String × Bool),
    (d.map Prod.fst).Nodup →
    ((autos.foldl (fun d lang => dictInsertIfAbsent d lang true) d).map Prod.fst).Nodup
      ∧ ∀ p ∈ d, p ∈ autos.foldl (fun d lang => dictInsertIfAbsent d lang true) d := by
  induction autos with
  | nil =>
    intro d h1
    exact ⟨h1, fun p hp => hp⟩
  | cons a autos ih =>
    intro d h1
    simp only [List.foldl_cons]
    by_cases ha : d.any (fun q => q.1 = a) = true
    · rw [show dictInsertIfAbsent d a true = d from by rw [dictInsertIfAbsent, if_pos ha]]
      exact ih d h1
    · have hkeys : dictInsertIfAbsent d a true = d ++ [(a, true)] := by
        rw [dictInsertIfAbsent, if_neg ha]
      have hnodup : ((d ++ [(a, true)]).map Prod.fst).Nodup := by
        have hna : a ∉ d.map Prod.fst := fun hc => ha ((any_key_eq d a).2 hc)
        simp [List.nodup_append, h1, hna]
      rw [hkeys]
      obtain ⟨g1, g2⟩ := ih (d ++ [(a, true)]) hnodup
      exact ⟨g1, fun p hp => g2 p (List.mem_append_left _ hp)⟩

theorem filter_eq_nil_of_not_key (d : List (String × Bool)) (k : String)
    (hk : k ∉ d.map Prod.fst) : d.filter (fun p => p.1 = k) = [] := by
  induction d with
  | nil => rfl
  | cons a d ih =>
    simp only [List.map_cons, List.mem_cons] at hk
    push_neg at hk
    simp only [List.filter_cons, decide_eq_true_eq]
    rw [if_neg (fun hc => hk.1 hc.symm)]
    exact ih hk.2

theorem filter_eq_singleton_of_nodup (d : List (String × Bool)) (k : String) (v : Bool)
    (hd : (d.map Prod.fst).Nodup) (hm : (k, v) ∈ d) :
    d.filter (fun p => p.1 = k) = [(k, v)] := by
  induction d with
  | nil => exact absurd hm (List.not_mem_nil _)
  | cons a d ih =>
    simp only [List.map_cons, List.nodup_cons] at hd
    rcases List.mem_cons.1 hm with rfl | hm2
    · have hcond : ((k, v).1 = k) := rfl
      simp only [List.filter_cons, decide_eq_true_eq, if_pos hcond]
      rw [filter_eq_nil_of_not_key d k hd.1]
      simp
    · have hak : ¬(a.1 = k) := by
        intro hc
        exact hd.1 (hc ▸ List.mem_map_of_mem Prod.fst hm2)
      simp only [List.filter_cons, decide_eq_true_eq]
      rw [if_neg hak]
      exact ih hd.2 hm2

/-! ## Claim C5 -/

/-- C5: the subtitle mapping `_format_entry` builds has pairwise-distinct
language keys, and a language listed both as human-authored and as
auto-generated is recorded exactly once, tagged `auto = false`. -/
theorem C5_subtitles_unique_human_precedence (subs autos : List String) :
    ((buildSubtitles subs autos).map Prod.fst).Nodup
    ∧ ∀ lang ∈ subs, lang ∈ autos →
        (buildSubtitles subs autos).filter (fun p => p.1 = lang) = [(lang, false)] := by
  obtain ⟨p1nodup, p1false, p1mem⟩ := phase1_invariant subs [] (by simp) (by simp)
  obtain ⟨p2nodup, p2keep⟩ :=
    phase2_invariant autos (subs.foldl (fun d lang => dictInsert d lang false) []) p1nodup
  refine ⟨p2nodup, ?_⟩
  intro lang hsub _
  have hkey := p1mem lang (Or.inl hsub)
  rcases List.mem_map.1 hkey with ⟨p, hp, hfst⟩
  have hval := p1false p hp
  have hpe : p = (lang, false) := by
    rcases p with ⟨x, y⟩
    simp only at hfst hval
    rw [hfst, hval]
  rw [hpe] at hp
  exact filter_eq_singleton_of_nodup _ lang false p2nodup (p2keep _ hp)

/-- C5 witness: the overlap language "en" is recorded once as
human-authored. -/
theorem C5_subtitles_unique_human_precedence_witness :
    ((buildSubtitles ["en", "ja"] ["en", "fr"]).map Prod.fst).Nodup
    ∧ ∀ lang ∈ ["en", "ja"], lang ∈ ["en", "fr"] →
        (buildSubtitles ["en", "ja"] ["en", "fr"]).filter (fun p => p.1 = lang)
          = [(lang, false)] :=
  C5_subtitles_unique_human_precedence ["en", "ja"] ["en", "fr"]

/-! ## Claim C7 -/

theorem specSizeField_eq_filesizeOf (f : RawFormat) : specSizeField f = filesizeOf f := by
  rcases hf : f.filesize with _ | n
  · simp [specSizeField, filesizeOf, pyOrInt, hf]
  · simp [specSizeField, filesizeOf, pyOrInt, hf]

/-- C7 counterexample: on a record whose known size is 0 the code emits
no size annotation, while the claim ("whenever the known size is ≥ 0")
demands one; the two compositions disagree there. -/
theorem C7_counterexample :
    formatLabel
        ⟨some "137", some "avc1", some "none", some "mp4", some "1920x1080", none, some 0, none⟩
      = "1920x1080 mp4 (映像のみ)"
    ∧ specLabelGeqZero
        ⟨some "137", some "avc1", some "none", some "mp4", some "1920x1080", none, some 0, none⟩
      = "1920x1080 mp4 (映像のみ) [0.0MB]"
    ∧ formatLabel
        ⟨some "137", some "avc1", some "none", some "mp4", some "1920x1080", none, some 0, none⟩
      ≠ specLabelGeqZero
        ⟨some "137", some "avc1", some "none", some "mp4", some "1920x1080", none, some 0, none⟩ := by
  exact ⟨by decide, by decide, by decide⟩

/-- C7 amended: every label is composed in the fixed order
resolution/quality note (when present), container extension,
video/audio-presence annotation (when the record has either), then the
approximate size annotation exactly when the consulted size value —
`filesize`, falling back to `filesize_approx` when missing or zero — is
present and nonzero. -/
theorem C7_label_order (f : RawFormat) : formatLabel f = specLabelNonzero f := by
  have hres : (if resolutionOf f ≠ "" then [resolutionOf f] else [])
      = (if resolutionOf f = "" then [] else [resolutionOf f]) := by
    by_cases h : resolutionOf f = ""
    · simp [h]
    · simp [h]
  have hpres : (if hasVideo f && hasAudio f then ["(映像+音声)"]
        else if hasVideo f then ["(映像のみ)"]
        else if hasAudio f then ["(音声のみ)"] else [])
      = (if hasVideo f then if hasAudio f then ["(映像+音声)"] else ["(映像のみ)"]
        else if hasAudio f then ["(音声のみ)"] else []) := by
    by_cases hv : hasVideo f
    · by_cases ha : hasAudio f
      · simp [hv, ha]
      · simp [hv, ha]
    · simp [hv]
  have hsize : (match filesizeOf f with
        | some n => if n ≠ 0 then [sizeTag n] else []
        | none => [])
      = (match filesizeOf f with
        | some n => if n = 0 then [] else [sizeTag n]
        | none => ([] : List String)) := by
    rcases filesizeOf f with _ | n
    · rfl
    · by_cases hn : n = 0
      · simp [hn]
      · simp [hn]
  rw [formatLabel, labelParts, specLabelNonzero, specSizeField_eq_filesizeOf,
    hres, hpres, hsize]

/-! ## Claim C2: `serve_file` and path sanitization -/

theorem foldl_basename_no_slash (cs : List Char) : ∀ acc, '/' ∉ acc →
    '/' ∉ cs.foldl (fun acc c => if c = '/' then [] else acc ++ [c]) acc := by
  induction cs with
  | nil => exact fun acc h => h
  | cons c cs ih =>
    intro acc hacc
    simp only [List.foldl_cons]
    by_cases hc : c = '/'
    · rw [if_pos hc]
      exact ih [] (List.not_mem_nil _)
    · rw [if_neg hc]
      apply ih
      intro hmem
      rcases List.mem_append.1 hmem with hm | hm
      · exact hacc hm
      · simp at hm
        exact hc hm.symm

theorem pyBasename_no_slash (p : String) : '/' ∉ (pyBasename p).data := by
  exact foldl_basename_no_slash p.data [] (List.not_mem_nil _)

theorem foldl_basename_no_slash_id (cs : List Char) (hcs : '/' ∉ cs) : ∀ acc,
    cs.foldl (fun acc c => if c = '/' then [] else acc ++ [c]) acc = acc ++ cs := by
  induction cs with
  | nil => simp
  | cons c cs ih =>
    intro acc
    have hc : c ≠ '/' := fun hh => hcs (by simp [hh])
    simp only [List.foldl_cons, if_neg hc]
    rw [ih (fun hm => hcs (List.mem_cons_of_mem c hm)) (acc ++ [c])]
    simp

theorem pyBasename_idem (p : String) : pyBasename (pyBasename p) = pyBasename p := by
  rw [show pyBasename (pyBasename p) = String.mk (afterLastSlash (pyBasename p).data) from rfl,
    afterLastSlash, foldl_basename_no_slash_id _ (pyBasename_no_slash p) [], List.nil_append]

/-- C2 counterexample: a task identifier that contains a path separator
is not rejected with a not-found result — its last component is used, and
when that resolves to an existing file the file is served. -/
theorem C2_counterexample :
    '/' ∈ ("evil/t1" : String).data
    ∧ serve_file ["downloads/t1/a.mp4"] "evil/t1" "a.mp4"
        ≠ ServeResult.notFound
    ∧ serve_file ["downloads/t1/a.mp4"] "evil/t1" "a.mp4"
        = ServeResult.file "downloads/t1/a.mp4" "a.mp4" := by
  exact ⟨by decide, by decide, by decide⟩

/-- C2 amended: a retrieval identifier or filename containing
path-separator components is not rejected but reduced to its final path
component: the outcome is exactly the outcome for the sanitized pair, the
sanitized components contain no separator, a pair whose joined path does
not resolve to an existing file yields not-found (never a crash), and any
served file is the one the OS resolves for
`downloads/<basename task_id>/<basename filename>`.  Sanitization does
not confine retrieval to the download root: a final component can still
be `..`, and the last conjunct exhibits `task_id = "x/.."` — an
identifier with a separator — serving the application file above the
root. -/
theorem C2_serve_file_sanitized (fs : List String) (task_id filename : String) :
    serve_file fs task_id filename = serve_file fs (pyBasename task_id) (pyBasename filename)
    ∧ '/' ∉ (pyBasename task_id).data ∧ '/' ∉ (pyBasename filename).data
    ∧ (resolvePath ("downloads/" ++ pyBasename task_id ++ "/" ++ pyBasename filename) ∉ fs →
        serve_file fs task_id filename = ServeResult.notFound)
    ∧ (∀ fp dn, serve_file fs task_id filename = ServeResult.file fp dn →
        fp ∈ fs
          ∧ fp = resolvePath ("downloads/" ++ pyBasename task_id ++ "/"
              ++ pyBasename filename)
          ∧ dn = pyBasename filename)
    ∧ serve_file ["app.py", "downloads/t1/a.mp4"] "x/.." "app.py"
        = ServeResult.file "app.py" "app.py" := by
  refine ⟨?_, pyBasename_no_slash task_id, pyBasename_no_slash filename, ?_, ?_, by decide⟩
  · rw [serve_file, serve_file, pyBasename_idem, pyBasename_idem]
  · intro hnot
    rw [serve_file]
    rw [if_neg]
    intro hc
    exact hnot (by simpa [List.elem_iff] using hc)
  · intro fp dn hserve
    rw [serve_file] at hserve
    by_cases hmem : fs.contains (resolvePath ("downloads/" ++ pyBasename task_id ++ "/"
        ++ pyBasename filename)) = true
    · rw [if_pos hmem] at hserve
      injection hserve with h1 h2
      subst h1
      subst h2
      exact ⟨by simpa [List.elem_iff] using hmem, rfl, rfl⟩
    · rw [if_neg hmem] at hserve
      exact absurd hserve (by simp)

/-- C2 witness: the amended theorem applied to a concrete filesystem and
a traversal-shaped pair. -/
theorem C2_serve_file_sanitized_witness :
    serve_file ["downloads/t1/a.mp4"] "../t1" "b/a.mp4"
        = serve_file ["downloads/t1/a.mp4"] (pyBasename "../t1") (pyBasename "b/a.mp4")
    ∧ '/' ∉ (pyBasename "../t1").data ∧ '/' ∉ (pyBasename "b/a.mp4").data
    ∧ (resolvePath ("downloads/" ++ pyBasename "../t1" ++ "/" ++ pyBasename "b/a.mp4")
          ∉ ["downloads/t1/a.mp4"] →
        serve_file ["downloads/t1/a.mp4"] "../t1" "b/a.mp4" = ServeResult.notFound)
    ∧ (∀ fp dn, serve_file ["downloads/t1/a.mp4"] "../t1" "b/a.mp4" = ServeResult.file fp dn →
        fp ∈ ["downloads/t1/a.mp4"]
          ∧ fp = resolvePath ("downloads/" ++ pyBasename "../t1" ++ "/"
              ++ pyBasename "b/a.mp4")
          ∧ dn = pyBasename "b/a.mp4")
    ∧ serve_file ["app.py", "downloads/t1/a.mp4"] "x/.." "app.py"
        = ServeResult.file "app.py" "app.py" :=
  C2_serve_file_sanitized ["downloads/t1/a.mp4"] "../t1" "b/a.mp4"

/-! ## Claims about `download_video`: C4, C3, C1, C9 -/

theorem buildYdlOpts_format (format_id subtitle_lang : String) (embed_subs : Bool) :
    (buildYdlOpts format_id subtitle_lang embed_subs).format
      = if format_id = "" then "best" else format_id ++ "+bestaudio/best/" ++ format_id := by
  rw [buildYdlOpts]
  by_cases hf : format_id = "" <;> by_cases hs : subtitle_lang = "" <;> cases embed_subs <;>
    simp [hf, hs]

theorem buildYdlOpts_merge (format_id subtitle_lang : String) (embed_subs : Bool)
    (hf : format_id ≠ "") :
    (buildYdlOpts format_id subtitle_lang embed_subs).merge_output_format = some "mp4" := by
  rw [buildYdlOpts]
  by_cases hs : subtitle_lang = "" <;> cases embed_subs <;> simp [hf, hs]

/-- C4: the format selector maps an empty format id to the engine's
single best option and any non-empty id F to "F+bestaudio/best/F" with a
forced mp4 merge container; in particular "137" yields
"137+bestaudio/best/137" with mp4 merge. -/
theorem C4_format_selector (format_id subtitle_lang : String) (embed_subs : Bool) :
    (format_id = "" → (buildYdlOpts format_id subtitle_lang embed_subs).format = "best")
    ∧ (format_id ≠ "" →
        (buildYdlOpts format_id subtitle_lang embed_subs).format
            = format_id ++ "+bestaudio/best/" ++ format_id
          ∧ (buildYdlOpts format_id subtitle_lang embed_subs).merge_output_format = some "mp4")
    ∧ (buildYdlOpts "137" subtitle_lang embed_subs).format = "137+bestaudio/best/137"
    ∧ (buildYdlOpts "137" subtitle_lang embed_subs).merge_output_format = some "mp4" := by
  refine ⟨?_, ?_, ?_, ?_⟩
  · intro hf
    rw [buildYdlOpts_format, if_pos hf]
  · intro hf
    exact ⟨by rw [buildYdlOpts_format, if_neg hf],
      buildYdlOpts_merge format_id subtitle_lang embed_subs hf⟩
  · rw [buildYdlOpts_format]
    simp
  · exact buildYdlOpts_merge "137" subtitle_lang embed_subs (by simp)

/-- C4 witness: the selector evaluated at the concrete format id "137". -/
theorem C4_format_selector_witness :
    ("137" : String) ≠ ""
      ∧ (buildYdlOpts "137" "" false).format = "137+bestaudio/best/137"
      ∧ (buildYdlOpts "137" "" false).merge_output_format = some "mp4" :=
  ⟨by decide, ((C4_format_selector "137" "" false).2.1 (by decide)).1,
    ((C4_format_selector "137" "" false).2.1 (by decide)).2⟩

/-- C3: when the engine raises a download failure the workspace is
deleted (best effort), the response is the client error carrying the
engine's message, and no task_id is returned — the outcome's response is
the error constructor, which has no task_id field. -/
theorem C3_engine_failure_cleanup (req : DownloadRequest) (task_id msg : String)
    (engine : YdlOpts → EngineResult) (synth : String → List String → String → SynthEffect)
    (hurl : pyStrip req.url ≠ "")
    (hengine : engine (buildYdlOpts (pyStrip req.format_id) (pyStrip req.subtitle_lang)
        req.embed_subs) = EngineResult.downloadError msg) :
    download_video req task_id engine synth
      = ⟨Response.clientError ("ダウンロードに失敗しました: " ++ msg), none⟩ := by
  simp only [download_video, if_neg hurl, hengine]

/-- C3 witness: the failure path driven by an engine stub that raises. -/
theorem C3_engine_failure_cleanup_witness :
    pyStrip "http://x" ≠ ""
      ∧ download_video ⟨"http://x", "", "", false, false, ""⟩ "t1"
          (fun _ => EngineResult.downloadError "boom") (fun _ fs _ => ⟨fs, Except.error ""⟩)
        = ⟨Response.clientError ("ダウンロードに失敗しました: " ++ "boom"), none⟩ :=
  ⟨by decide,
    C3_engine_failure_cleanup ⟨"http://x", "", "", false, false, ""⟩ "t1" "boom"
      (fun _ => EngineResult.downloadError "boom") (fun _ fs _ => ⟨fs, Except.error ""⟩)
      (by decide) rfl⟩

/-- C1 counterexample: a workspace listing with two non-subtitle files —
the claim demands the no-artifact failure whenever the count differs from
one, but the handler returns the first file. -/
theorem C1_counterexample :
    (["a.mp4", "b.mp4"].filter (fun f => !isSubtitleFile f)).length = 2
    ∧ download_video ⟨"u", "", "", false, false, ""⟩ "t1"
        (fun _ => EngineResult.ok ["a.mp4", "b.mp4"]) (fun _ fs _ => ⟨fs, Except.error ""⟩)
      = ⟨Response.ok "t1" "a.mp4", some ["a.mp4", "b.mp4"]⟩ := by
  exact ⟨by decide, by decide⟩

/-- C1 amended: after a successful engine invocation the handler excludes
subtitle-extension files from the listing; when no file remains it fails
with the no-artifact server error and deletes the workspace; when one or
more remain (and no subtitle synthesis was requested) it returns the
first remaining file as the artifact — it does not fail on more than
one. -/
theorem C1_artifact_selection (req : DownloadRequest) (task_id : String)
    (engine : YdlOpts → EngineResult) (synth : String → List String → String → SynthEffect)
    (files : List String)
    (hurl : pyStrip req.url ≠ "")
    (hengine : engine (buildYdlOpts (pyStrip req.format_id) (pyStrip req.subtitle_lang)
        req.embed_subs) = EngineResult.ok files) :
    (files.filter (fun f => !isSubtitleFile f) = [] →
        download_video req task_id engine synth
          = ⟨Response.serverError "ファイルが見つかりません", none⟩)
    ∧ ∀ v rest, files.filter (fun f => !isSubtitleFile f) = v :: rest →
        req.generate_subs = false →
        download_video req task_id engine synth = ⟨Response.ok task_id v, some files⟩ := by
  constructor
  · intro hempty
    simp only [download_video, if_neg hurl, hengine, hempty]
  · intro v rest hcons hgen
    simp only [download_video, if_neg hurl, hengine, hcons, hgen]
    simp

/-- C1 witness: the amended selection applied to a one-file workspace. -/
theorem C1_artifact_selection_witness :
    download_video ⟨"u", "", "", false, false, ""⟩ "t1"
        (fun _ => EngineResult.ok ["v.mp4"]) (fun _ fs _ => ⟨fs, Except.error ""⟩)
      = ⟨Response.ok "t1" "v.mp4", some ["v.mp4"]⟩ :=
  (C1_artifact_selection ⟨"u", "", "", false, false, ""⟩ "t1"
      (fun _ => EngineResult.ok ["v.mp4"]) (fun _ fs _ => ⟨fs, Except.error ""⟩) ["v.mp4"]
      (by decide) rfl).2 "v.mp4" [] (by decide) rfl

/-- C9: when subtitle synthesis fails after a successful download the
handler answers with the server error carrying the cause and deletes
nothing — the final workspace is exactly the listing as of the exception
point (original download, generated subtitle file and any partial muxed
output included). -/
theorem C9_synth_failure_no_cleanup (req : DownloadRequest) (task_id : String)
    (engine : YdlOpts → EngineResult) (synth : String → List String → String → SynthEffect)
    (files : List String) (v : String) (rest : List String) (files2 : List String)
    (emsg : String)
    (hurl : pyStrip req.url ≠ "")
    (hengine : engine (buildYdlOpts (pyStrip req.format_id) (pyStrip req.subtitle_lang)
        req.embed_subs) = EngineResult.ok files)
    (hfilter : files.filter (fun f => !isSubtitleFile f) = v :: rest)
    (hgen : req.generate_subs = true)
    (hsynth : synth v files (pyStrip req.whisper_lang) = ⟨files2, Except.error emsg⟩) :
    download_video req task_id engine synth
      = ⟨Response.serverError ("字幕生成に失敗しました: " ++ emsg), some files2⟩ := by
  simp only [download_video, if_neg hurl, hengine, hfilter, hgen, hsynth]
  simp

/-- C9 witness: a synthesis stub that writes a subtitle file and then
fails; the workspace keeps both files. -/
theorem C9_synth_failure_no_cleanup_witness :
    download_video ⟨"u", "", "", false, true, ""⟩ "t1"
        (fun _ => EngineResult.ok ["v.mp4"])
        (fun _ fs _ => ⟨fs ++ ["generated.srt"], Except.error "model"⟩)
      = ⟨Response.serverError ("字幕生成に失敗しました: " ++ "model"),
          some ["v.mp4", "generated.srt"]⟩ :=
  C9_synth_failure_no_cleanup ⟨"u", "", "", false, true, ""⟩ "t1"
    (fun _ => EngineResult.ok ["v.mp4"])
    (fun _ fs _ => ⟨fs ++ ["generated.srt"], Except.error "model"⟩)
    ["v.mp4"] "v.mp4" [] ["v.mp4", "generated.srt"] "model"
    (by decide) rfl (by decide) rfl rfl

end MovieDownloader
